import Mathlib

/-!
# QCFractal task/queue management core: a shallow embedding

This file embeds the task-distribution core of QCFractal (server-side Task
Store and Manager Registry, the client-side QueueManager control loop, and the
heartbeat sweep) together with the `BaseProcedureDataset` collection helpers,
and proves the behavioural properties stated in the specification.

The queue subsystem has its behaviour pinned by the tests under
`qcfractal/tests/test_managers.py`; the server/manager implementation modules
are not part of the source tree analysed here, so those definitions are
modelled from the specification (each such definition says so in its doc
comment).  The `BaseProcedureDataset` definitions are translated directly from
`qcfractal/interface/collections/collection.py`.
-/

namespace QCFractal

/-! ## Task Store data model (modelled from the spec, section 3) -/

/-- Modelled from the spec: task lifecycle status,
`status ∈ {WAITING, RUNNING, COMPLETE, ERROR}`. -/
inductive TaskStatus
  | waiting
  | running
  | complete
  | error
deriving DecidableEq, Repr

/-- Whether a status is terminal (COMPLETE or ERROR). -/
def TaskStatus.isTerminal : TaskStatus → Bool
  | .complete => true
  | .error => true
  | _ => false

/-- Modelled from the spec: outcome of executing a task payload, either a
success value or a structured failure. -/
inductive Outcome
  | success
  | failure
deriving DecidableEq, Repr

/-- The terminal status a pushed outcome maps a task to. -/
def Outcome.toStatus : Outcome → TaskStatus
  | .success => .complete
  | .failure => .error

/-- Modelled from the spec: a Task record
`{id, tag, status, claimed_by}` (the opaque payload and timestamps carry no
behaviour relevant to the claims and are omitted). -/
structure Task where
  id : Nat
  tag : String
  status : TaskStatus
  claimed_by : Option String
deriving DecidableEq, Repr

/-- Modelled from the spec: the server-side durable Task Store, with the
completed/failed tallies the idempotent-completion property constrains. -/
structure TaskStore where
  tasks : List Task
  ncompleted : Nat
  nfailed : Nat
deriving DecidableEq, Repr

/-- The empty Task Store. -/
def TaskStore.init : TaskStore := ⟨[], 0, 0⟩

/-- Modelled from the spec: the in-place walk underlying
`claim(tag, capabilities, limit)`.  Transitions up to `limit` WAITING tasks
whose tag matches into RUNNING with `claimed_by` set, returning the updated
task list and the claimed tasks. -/
def claimGo (manager tag : String) : Nat → List Task → List Task × List Task
  | _, [] => ([], [])
  | 0, ts => (ts, [])
  | limit + 1, t :: ts =>
    if t.status = TaskStatus.waiting ∧ t.tag = tag then
      ({ t with status := TaskStatus.running, claimed_by := some manager } ::
          (claimGo manager tag limit ts).1,
        { t with status := TaskStatus.running, claimed_by := some manager } ::
          (claimGo manager tag limit ts).2)
    else
      (t :: (claimGo manager tag (limit + 1) ts).1, (claimGo manager tag (limit + 1) ts).2)

/-- Modelled from the spec: `claim(tag, capabilities, limit)` atomically
transitions up to `limit` WAITING tasks matching the tag to RUNNING, assigning
`claimed_by`; returns the empty list when none are available. -/
def TaskStore.claim (s : TaskStore) (manager tag : String) (limit : Nat) :
    TaskStore × List Task :=
  let r := claimGo manager tag limit s.tasks
  ({ s with tasks := r.1 }, r.2)

/-- Modelled from the spec: mark the single result `(tid, out)` in the store.
A task that is already COMPLETE/ERROR is left untouched and not re-counted;
an unknown id is a no-op rather than an error. -/
def TaskStore.completeOne (s : TaskStore) (tid : Nat) (out : Outcome) : TaskStore :=
  if s.tasks.any (fun t => t.id == tid && !t.status.isTerminal) then
    { tasks := s.tasks.map (fun t =>
        if t.id == tid && !t.status.isTerminal then { t with status := out.toStatus } else t),
      ncompleted := s.ncompleted + (if out = Outcome.success then 1 else 0),
      nfailed := s.nfailed + (if out = Outcome.success then 0 else 1) }
  else
    s

/-- Modelled from the spec: `complete(results)` marks each listed task
COMPLETE/ERROR; re-submitting an already-completed task id is a no-op. -/
def TaskStore.completeBatch (s : TaskStore) (results : List (Nat × Outcome)) : TaskStore :=
  results.foldl (fun acc r => acc.completeOne r.1 r.2) s

/-- Modelled from the spec: `release_by_manager(manager_id)` reverts all
RUNNING tasks owned by the manager back to WAITING. -/
def TaskStore.release_by_manager (s : TaskStore) (manager : String) : TaskStore :=
  { s with tasks := s.tasks.map (fun t =>
      if t.status = TaskStatus.running ∧ t.claimed_by = some manager then
        { t with status := TaskStatus.waiting, claimed_by := none }
      else t) }

/-- Modelled from the spec: create a WAITING task via the submission API.  The
store is keyed by id, so a submission whose id is already present is
rejected. -/
def TaskStore.submit (s : TaskStore) (tid : Nat) (tag : String) : TaskStore :=
  if s.tasks.any (fun t => t.id == tid) then s
  else { s with tasks := s.tasks ++ [⟨tid, tag, TaskStatus.waiting, none⟩] }

/-- Modelled from the spec: the atomic operations concurrent callers issue
against the Task Store; the spec requires all mutations to be serializable, so
any concurrent execution is equivalent to some interleaving, i.e. a list of
these operations. -/
inductive StoreOp
  | submit (tid : Nat) (tag : String)
  | claim (manager tag : String) (limit : Nat)
  | complete (results : List (Nat × Outcome))
  | release (manager : String)

/-- Apply one atomic store operation. -/
def TaskStore.applyOp (s : TaskStore) : StoreOp → TaskStore
  | .submit tid tag => s.submit tid tag
  | .claim m tag l => (s.claim m tag l).1
  | .complete rs => s.completeBatch rs
  | .release m => s.release_by_manager m

/-- Run a serialized interleaving of atomic store operations. -/
def TaskStore.runOps (s : TaskStore) (ops : List StoreOp) : TaskStore :=
  ops.foldl TaskStore.applyOp s

/-- The spec invariant: a RUNNING task always has a non-null `claimed_by`. -/
def RunningClaimed (s : TaskStore) : Prop :=
  ∀ t ∈ s.tasks, t.status = TaskStatus.running → t.claimed_by ≠ none

/-! ## Manager Registry (modelled from the spec, sections 3 and 4.2) -/

/-- Modelled from the spec: manager status, `ACTIVE` or `INACTIVE`. -/
inductive ManagerStatus
  | active
  | inactive
deriving DecidableEq, Repr

/-- Modelled from the spec: the observable manager record
`{name, tag, status, submitted, completed, failed, username, last_heartbeat}`. -/
structure ManagerRec where
  name : String
  tag : String
  status : ManagerStatus
  submitted : Nat
  completed : Nat
  failed : Nat
  username : String
  last_heartbeat : Nat
deriving DecidableEq, Repr

/-- Modelled from the spec: the server-side table of known managers. -/
abbrev Registry := List ManagerRec

/-- Modelled from the spec: server state = Task Store plus Manager Registry,
both exclusively owned and mutated by the server process. -/
structure Server where
  store : TaskStore
  registry : Registry
deriving DecidableEq

/-- Apply an edit to every registry record with the given name. -/
def Registry.bump (reg : Registry) (name : String) (f : ManagerRec → ManagerRec) : Registry :=
  List.map (fun r => if r.name = name then f r else r) reg

/-- Look up the observable record of a manager by name. -/
def Registry.lookup (reg : Registry) (name : String) : Option ManagerRec :=
  List.find? (fun r => r.name == name) reg

/-- Modelled from the spec: `heartbeat(manager_id)` updates `last_heartbeat`. -/
def Registry.heartbeat (reg : Registry) (name : String) (now : Nat) : Registry :=
  reg.bump name (fun r => { r with last_heartbeat := now })

/-- Modelled from the spec: `register(name, tags, username)` creates the
manager record (ACTIVE) on first registration. -/
def Registry.register (reg : Registry) (name tag username : String) (now : Nat) : Registry :=
  if (reg.lookup name).isSome then reg
  else reg ++ [⟨name, tag, ManagerStatus.active, 0, 0, 0, username, now⟩]

/-- Modelled from the spec: `deactivate(manager_id)` sets the manager
INACTIVE (never deleting it) and triggers `release_by_manager`. -/
def Server.deactivate (srv : Server) (name : String) : Server :=
  { store := srv.store.release_by_manager name,
    registry := srv.registry.bump name (fun r => { r with status := ManagerStatus.inactive }) }

/-- Whether an ACTIVE manager record has missed the heartbeat window. -/
def lapsed (now timeout : Nat) (r : ManagerRec) : Prop :=
  r.status = ManagerStatus.active ∧ timeout < now - r.last_heartbeat

instance (now timeout : Nat) (r : ManagerRec) : Decidable (lapsed now timeout r) :=
  inferInstanceAs (Decidable (_ ∧ _))

/-- Modelled from the spec: the Heartbeat Monitor `sweep(timeout)`.  Every
ACTIVE manager whose `now - last_heartbeat > timeout` is deactivated and its
RUNNING tasks are returned to the pool. -/
def Server.sweep (srv : Server) (now timeout : Nat) : Server :=
  let gone := List.filter (fun r => decide (lapsed now timeout r)) srv.registry
  { store := gone.foldl (fun st r => st.release_by_manager r.name) srv.store,
    registry := List.map
      (fun r => if lapsed now timeout r then { r with status := ManagerStatus.inactive } else r)
      srv.registry }

/-! ## Queue Manager (modelled from the spec, section 4.4) -/

/-- Modelled from the spec: a client-local stale payload — a result computed
locally but not yet confirmed by the server, with its failed-push attempt
counter and the pending outcome. -/
structure StalePayload where
  task_id : Nat
  attempts : Nat
  outcome : Outcome
deriving DecidableEq, Repr

/-- Modelled from the spec: the internal ceiling `max_tasks` is clamped to
(the spec fixes no numeric value; the tests only require it to be smaller
than 10^9). -/
def maxTasksCeiling : Nat := 1000

/-- Modelled from the spec: clamp a caller-supplied `max_tasks` to the
internal ceiling. -/
def clampMaxTasks (requested : Nat) : Nat := min requested maxTasksCeiling

/-- Modelled from the spec: the client-side QueueManager control-loop state:
its queue tag, the clamped task cap, the retry budget, the ids of
claimed-and-submitted tasks, the stale-payload tracking table, and the
stale-jobs gauge. -/
structure QueueManager where
  name : String
  queue_tag : String
  max_tasks : Nat
  server_error_retries : Nat
  current_tasks : List Nat
  _stale_payload_tracking : List StalePayload
  n_stale_jobs : Nat
deriving DecidableEq, Repr

/-- Modelled from the spec: QueueManager construction clamps `max_tasks`
to the internal ceiling and starts with no tracked work. -/
def QueueManager.build (name queue_tag : String) (max_tasks server_error_retries : Nat) :
    QueueManager :=
  { name := name, queue_tag := queue_tag, max_tasks := clampMaxTasks max_tasks,
    server_error_retries := server_error_retries, current_tasks := [],
    _stale_payload_tracking := [], n_stale_jobs := 0 }

/-- Add to the submitted/completed/failed tallies of the named manager. -/
def Registry.addCounts (reg : Registry) (name : String) (dsub dcomp dfail : Nat) : Registry :=
  reg.bump name (fun r =>
    { r with submitted := r.submitted + dsub, completed := r.completed + dcomp,
             failed := r.failed + dfail })

/-- Number of success outcomes in a result batch. -/
def countSuccess (rs : List (Nat × Outcome)) : Nat :=
  (rs.filter (fun r => r.2 = Outcome.success)).length

/-- Number of failure outcomes in a result batch. -/
def countFailure (rs : List (Nat × Outcome)) : Nat :=
  (rs.filter (fun r => r.2 ≠ Outcome.success)).length

/-- Modelled from the spec (section 4.4, step 5): retry pushing exactly the
tracked stale payloads.  On a working network each payload is confirmed
server-side, counted, and removed from tracking; on another network failure
its attempt counter grows, and a payload whose counter exceeds
`server_error_retries` leaves tracking and is promoted to the `stale_jobs`
gauge. -/
def QueueManager.retryStales (m : QueueManager) (srv : Server) (netOk : Bool) :
    QueueManager × Server :=
  if netOk then
    let batch := m._stale_payload_tracking.map (fun p => (p.task_id, p.outcome))
    (({ m with _stale_payload_tracking := [] } : QueueManager),
      ({ store := srv.store.completeBatch batch,
         registry := srv.registry.addCounts m.name 0 (countSuccess batch) (countFailure batch) } :
        Server))
  else
    let keep := m._stale_payload_tracking.filterMap (fun p =>
      if m.server_error_retries < p.attempts + 1 then none
      else some { p with attempts := p.attempts + 1 })
    let promoted :=
      (m._stale_payload_tracking.filter
        (fun p => m.server_error_retries < p.attempts + 1)).length
    (({ m with _stale_payload_tracking := keep, n_stale_jobs := m.n_stale_jobs + promoted } :
        QueueManager), srv)

/-- Modelled from the spec (section 4.4): one `update()` cycle.  Retry the
tracked stale payloads before claiming new work; claim up to
`max_tasks - len(current_tasks)` tasks matching the queue tag; collect the
adapter results available now (`adapterDone`); push the locally-complete
batch, moving it into `_stale_payload_tracking` (attempt counter 1) instead of
dropping it when the network fails; finally emit one heartbeat.  A network
failure is reported by `netOk = false`; the function is total, so no failure
escapes the loop. -/
def QueueManager.update (m : QueueManager) (srv : Server) (netOk : Bool)
    (adapterDone : List (Nat × Outcome)) (now : Nat) : QueueManager × Server :=
  let s1 := m.retryStales srv netOk
  let m1 := s1.1
  let srv1 := s1.2
  let capacity := m1.max_tasks - m1.current_tasks.length
  let s2 :=
    if netOk then
      let r := srv1.store.claim m1.name m1.queue_tag capacity
      (({ m1 with current_tasks := m1.current_tasks ++ r.2.map Task.id } : QueueManager),
        ({ store := r.1,
           registry := srv1.registry.addCounts m1.name r.2.length 0 0 } : Server))
    else (m1, srv1)
  let m2 := s2.1
  let srv2 := s2.2
  let done := adapterDone.filter (fun r => m2.current_tasks.contains r.1)
  let remaining := m2.current_tasks.filter (fun tid => !(done.any (fun r => r.1 == tid)))
  let s3 :=
    if netOk then
      (({ m2 with current_tasks := remaining } : QueueManager),
        ({ store := srv2.store.completeBatch done,
           registry := srv2.registry.addCounts m2.name 0 (countSuccess done) (countFailure done) } :
          Server))
    else
      let tracking := m2._stale_payload_tracking ++ done.map (fun r => ⟨r.1, 1, r.2⟩)
      (({ m2 with current_tasks := remaining, _stale_payload_tracking := tracking } :
          QueueManager), srv2)
  let m3 := s3.1
  let srv3 := s3.2
  if netOk then (m3, { srv3 with registry := srv3.registry.heartbeat m3.name now })
  else (m3, srv3)

/-- Modelled from the spec: `shutdown()` deactivates the manager in the
registry (which releases its still-RUNNING tasks back to the pool) and
reports `nshutdown`, the number of tasks returned to the pool: the
still-claimed ones plus any locally-complete results never confirmed
(tracked stale payloads and the stale-jobs gauge). -/
def QueueManager.shutdown (m : QueueManager) (srv : Server) : QueueManager × Server × Nat :=
  let n := m.current_tasks.length + m._stale_payload_tracking.length + m.n_stale_jobs
  (({ m with current_tasks := [], _stale_payload_tracking := [], n_stale_jobs := 0 } :
      QueueManager), srv.deactivate m.name, n)

/-! ## BaseProcedureDataset
Translated from `qcfractal/interface/collections/collection.py`.  Python
`dict`s become string-keyed association lists whose keys are unique by
construction (`alistSet` overwrites in place), and `KeyError` becomes the
error branch of `Except`. -/

/-- Python `str.lower()`: lower-case each character (written over the
character list so that proofs can evaluate it). -/
def pyLower (s : String) : String := ⟨s.data.map Char.toLower⟩

/-- Python dict lookup `d.get(k)` on a string-keyed association list. -/
def alistGet {α : Type} (l : List (String × α)) (k : String) : Option α :=
  (l.find? (fun p => p.1 == k)).map Prod.snd

/-- Python dict assignment `d[k] = v` on a string-keyed association list. -/
def alistSet {α : Type} (l : List (String × α)) (k : String) (v : α) : List (String × α) :=
  if l.any (fun p => p.1 == k) then
    l.map (fun p => if p.1 == k then (k, v) else p)
  else l ++ [(k, v)]

/-- Python `set.add` on a list representing a set. -/
def setAdd (l : List String) (x : String) : List String :=
  if l.contains x then l else l ++ [x]

/-- A stored specification object: the `.name` attribute the source reads,
plus the remaining payload, abstracted to a number so that distinct
specifications stay distinguishable. -/
structure ProcSpec where
  name : String
  payload : Nat
deriving DecidableEq, Repr

/-- A dataset entry record: its `.name` and its `object_map` from
specification name to the ObjectId of the submitted procedure. -/
structure DSEntry where
  name : String
  object_map : List (String × Nat)
deriving DecidableEq, Repr

/-- The `BaseProcedureDataset.DataModel` state the claims touch:
`records`, `specs` (both keyed by lower-cased name) and `history`. -/
structure ProcedureDataset where
  records : List (String × DSEntry)
  specs : List (String × ProcSpec)
  history : List String
deriving DecidableEq, Repr

/-- `BaseProcedureDataset._add_specification`: stores the specification under
`name.lower()` and raises `KeyError` when that key is present and `overwrite`
is false. -/
def ProcedureDataset._add_specification (ds : ProcedureDataset) (name : String)
    (spec : ProcSpec) (overwrite : Bool) : Except String ProcedureDataset :=
  let lname := pyLower name
  if (alistGet ds.specs lname).isSome ∧ ¬overwrite then
    Except.error "KeyError: already present, use overwrite=True to replace."
  else
    Except.ok { ds with specs := alistSet ds.specs lname spec }

/-- `BaseProcedureDataset.get_specification`: looks up `name.lower()` and
raises `KeyError` when absent. -/
def ProcedureDataset.get_specification (ds : ProcedureDataset) (name : String) :
    Except String ProcSpec :=
  match alistGet ds.specs (pyLower name) with
  | some s => Except.ok s
  | none => Except.error "KeyError: Specification not found."

/-- `BaseProcedureDataset.get_entry`: looks up `name.lower()` in `records`
and raises `KeyError` when absent. -/
def ProcedureDataset.get_entry (ds : ProcedureDataset) (name : String) :
    Except String DSEntry :=
  match alistGet ds.records (pyLower name) with
  | some r => Except.ok r
  | none => Except.error "KeyError: Could not find entry name in the dataset."

/-- The `continue` filter of `BaseProcedureDataset.compute`: skip the entry
when a subset was given and the entry name is not in it. -/
def subsetSkip (subset : Option (List String)) (n : String) : Bool :=
  match subset with
  | some s => !(s.contains n)
  | none => false

/-- One loop iteration of `BaseProcedureDataset.compute` on a single entry:
skip it when outside the subset or when `spec.name` is already in its
`object_map`, otherwise record the id returned by `_internal_compute_add`
and count one submission. -/
def computeEntry (spec : ProcSpec) (subset : Option (List String))
    (f : ProcSpec → DSEntry → Nat) (entry : DSEntry) : DSEntry × Nat :=
  if subsetSkip subset entry.name then (entry, 0)
  else if (alistGet entry.object_map spec.name).isSome then (entry, 0)
  else ({ entry with object_map := alistSet entry.object_map spec.name (f spec entry) }, 1)

/-- `BaseProcedureDataset.compute`: lower-cases the specification name, looks
it up (propagating `KeyError`), submits every entry in the optional subset
whose `object_map` lacks `spec.name` (the abstract `_internal_compute_add` is
the parameter `f`), adds the name to `history`, and returns the number of
submitted computations. -/
def ProcedureDataset.compute (ds : ProcedureDataset) (specification : String)
    (subset : Option (List String)) (f : ProcSpec → DSEntry → Nat) :
    Except String (ProcedureDataset × Nat) :=
  let lspec := pyLower specification
  match ds.get_specification lspec with
  | Except.error e => Except.error e
  | Except.ok spec =>
    let pairs := ds.records.map (fun kv => (kv.1, computeEntry spec subset f kv.2))
    let records := pairs.map (fun kv => (kv.1, kv.2.1))
    let submitted := (pairs.map (fun kv => kv.2.2)).sum
    Except.ok
      ({ ds with records := records, history := setAdd ds.history lspec }, submitted)

/-! ## Supporting lemmas: idempotent completion -/

/-- Every task carrying the given id is terminal in the store. -/
def IdTerminal (s : TaskStore) (tid : Nat) : Prop :=
  ∀ t ∈ s.tasks, t.id = tid → t.status.isTerminal = true

theorem completeOne_makes_terminal (s : TaskStore) (tid : Nat) (out : Outcome) :
    IdTerminal (s.completeOne tid out) tid := by
  intro t ht hid
  unfold TaskStore.completeOne at ht
  by_cases hany : s.tasks.any (fun t => t.id == tid && !t.status.isTerminal) = true
  · rw [if_pos hany] at ht
    rcases List.mem_map.mp ht with ⟨u, hu, hut⟩
    by_cases hcond : (u.id == tid && !u.status.isTerminal) = true
    · rw [if_pos hcond] at hut
      subst hut
      cases out <;> rfl
    · rw [if_neg hcond] at hut
      subst hut
      rcases Bool.eq_false_or_eq_true u.status.isTerminal with htc | hfc
      · exact htc
      · exact absurd (by simp [hid, hfc]) hcond
  · rw [if_neg hany] at ht
    simp only [List.any_eq_true, not_exists, not_and, Bool.and_eq_true, beq_iff_eq,
      Bool.not_eq_true'] at hany
    rcases Bool.eq_false_or_eq_true t.status.isTerminal with htc | hfc
    · exact htc
    · exact absurd hfc (hany t ht hid)

theorem completeOne_preserves_terminal (s : TaskStore) (tid tid' : Nat) (out : Outcome)
    (h : IdTerminal s tid) : IdTerminal (s.completeOne tid' out) tid := by
  intro t ht hid
  unfold TaskStore.completeOne at ht
  by_cases hany : s.tasks.any (fun t => t.id == tid' && !t.status.isTerminal) = true
  · rw [if_pos hany] at ht
    rcases List.mem_map.mp ht with ⟨u, hu, hut⟩
    by_cases hcond : (u.id == tid' && !u.status.isTerminal) = true
    · rw [if_pos hcond] at hut
      subst hut
      cases out <;> rfl
    · rw [if_neg hcond] at hut
      subst hut
      exact h u hu hid
  · rw [if_neg hany] at ht
    exact h t ht hid

theorem completeOne_noop (s : TaskStore) (tid : Nat) (out : Outcome)
    (h : IdTerminal s tid) : s.completeOne tid out = s := by
  unfold TaskStore.completeOne
  have hany : s.tasks.any (fun t => t.id == tid && !t.status.isTerminal) = false := by
    simp only [List.any_eq_false, Bool.and_eq_true, beq_iff_eq, Bool.not_eq_true', not_and]
    intro t ht hid
    simp [h t ht hid]
  simp [hany]

theorem completeBatch_preserves_terminal (rs : List (Nat × Outcome)) (s : TaskStore)
    (tid : Nat) (h : IdTerminal s tid) : IdTerminal (s.completeBatch rs) tid := by
  induction rs generalizing s with
  | nil => exact h
  | cons r rs ih => exact ih _ (completeOne_preserves_terminal s tid r.1 r.2 h)

theorem completeBatch_makes_terminal (rs : List (Nat × Outcome)) (s : TaskStore) :
    ∀ r ∈ rs, IdTerminal (s.completeBatch rs) r.1 := by
  induction rs generalizing s with
  | nil => intro r hr; cases hr
  | cons p rs ih =>
    intro r hr
    rcases List.mem_cons.mp hr with h | h
    · subst h
      exact completeBatch_preserves_terminal rs _ r.1 (completeOne_makes_terminal s r.1 r.2)
    · exact ih _ r h

theorem completeBatch_noop (rs : List (Nat × Outcome)) (s : TaskStore)
    (h : ∀ r ∈ rs, IdTerminal s r.1) : s.completeBatch rs = s := by
  induction rs generalizing s with
  | nil => rfl
  | cons r rs ih =>
    have h0 : s.completeOne r.1 r.2 = s := completeOne_noop s r.1 r.2 (h r (by simp))
    show (s.completeOne r.1 r.2).completeBatch rs = s
    rw [h0]
    exact ih s (fun q hq => h q (by simp [hq]))

/-! ## Supporting lemmas: claiming -/

/-- The transformation `claim` applies to a WAITING task it picks. -/
def claimMark (manager : String) (t : Task) : Task :=
  { t with status := TaskStatus.running, claimed_by := some manager }

theorem claimGo_fst_mem (m tag : String) :
    ∀ (l : Nat) (ts : List Task) (t : Task), t ∈ (claimGo m tag l ts).1 →
      t ∈ ts ∨ (t.status = TaskStatus.running ∧ t.claimed_by = some m) := by
  intro l ts
  induction ts generalizing l with
  | nil => intro t ht; cases l <;> cases ht
  | cons a ts ih =>
    intro t ht
    cases l with
    | zero => exact Or.inl ht
    | succ l =>
      rw [claimGo] at ht
      by_cases hc : (a.status = TaskStatus.waiting ∧ a.tag = tag)
      · rw [if_pos hc] at ht
        rcases List.mem_cons.mp ht with h | h
        · subst h
          exact Or.inr ⟨rfl, rfl⟩
        · rcases ih l t h with h' | h'
          · exact Or.inl (List.mem_cons_of_mem a h')
          · exact Or.inr h'
      · rw [if_neg hc] at ht
        rcases List.mem_cons.mp ht with h | h
        · exact Or.inl (by rw [h]; exact List.mem_cons_self a ts)
        · rcases ih (l + 1) t h with h' | h'
          · exact Or.inl (List.mem_cons_of_mem a h')
          · exact Or.inr h'

theorem claimGo_snd_claimed (m tag : String) :
    ∀ (l : Nat) (ts : List Task) (t : Task), t ∈ (claimGo m tag l ts).2 →
      t.status = TaskStatus.running ∧ t.claimed_by = some m := by
  intro l ts
  induction ts generalizing l with
  | nil => intro t ht; cases l <;> cases ht
  | cons a ts ih =>
    intro t ht
    cases l with
    | zero => cases ht
    | succ l =>
      rw [claimGo] at ht
      by_cases hc : (a.status = TaskStatus.waiting ∧ a.tag = tag)
      · rw [if_pos hc] at ht
        rcases List.mem_cons.mp ht with h | h
        · subst h
          exact ⟨rfl, rfl⟩
        · exact ih l t h
      · rw [if_neg hc] at ht
        exact ih (l + 1) t ht

theorem claimGo_snd_sub_fst (m tag : String) :
    ∀ (l : Nat) (ts : List Task) (t : Task), t ∈ (claimGo m tag l ts).2 →
      t ∈ (claimGo m tag l ts).1 := by
  intro l ts
  induction ts generalizing l with
  | nil => intro t ht; cases l <;> cases ht
  | cons a ts ih =>
    intro t ht
    cases l with
    | zero => cases ht
    | succ l =>
      rw [claimGo] at ht ⊢
      by_cases hc : (a.status = TaskStatus.waiting ∧ a.tag = tag)
      · rw [if_pos hc] at ht ⊢
        rcases List.mem_cons.mp ht with h | h
        · subst h
          exact List.mem_cons_self _ _
        · exact List.mem_cons_of_mem _ (ih l t h)
      · rw [if_neg hc] at ht ⊢
        exact List.mem_cons_of_mem _ (ih (l + 1) t ht)

theorem claimGo_fst_ids (m tag : String) :
    ∀ (l : Nat) (ts : List Task),
      (claimGo m tag l ts).1.map Task.id = ts.map Task.id := by
  intro l ts
  induction ts generalizing l with
  | nil => cases l <;> rfl
  | cons a ts ih =>
    cases l with
    | zero => rfl
    | succ l =>
      rw [claimGo]
      by_cases hc : (a.status = TaskStatus.waiting ∧ a.tag = tag)
      · rw [if_pos hc]
        show a.id :: (claimGo m tag l ts).1.map Task.id = a.id :: ts.map Task.id
        rw [ih l]
      · rw [if_neg hc]
        show a.id :: (claimGo m tag (l + 1) ts).1.map Task.id = a.id :: ts.map Task.id
        rw [ih (l + 1)]

theorem claimGo_snd_was_waiting (m tag : String) :
    ∀ (l : Nat) (ts : List Task) (t : Task), t ∈ (claimGo m tag l ts).2 →
      ∃ u ∈ ts, u.id = t.id ∧ u.status = TaskStatus.waiting := by
  intro l ts
  induction ts generalizing l with
  | nil => intro t ht; cases l <;> cases ht
  | cons a ts ih =>
    intro t ht
    cases l with
    | zero => cases ht
    | succ l =>
      rw [claimGo] at ht
      by_cases hc : (a.status = TaskStatus.waiting ∧ a.tag = tag)
      · rw [if_pos hc] at ht
        rcases List.mem_cons.mp ht with h | h
        · exact ⟨a, List.mem_cons_self a ts, by rw [h], hc.1⟩
        · rcases ih l t h with ⟨u, hu, hut⟩
          exact ⟨u, List.mem_cons_of_mem a hu, hut⟩
      · rw [if_neg hc] at ht
        rcases ih (l + 1) t ht with ⟨u, hu, hut⟩
        exact ⟨u, List.mem_cons_of_mem a hu, hut⟩

theorem claimGo_nomatch (m tag : String) :
    ∀ (l : Nat) (ts : List Task),
      (∀ t ∈ ts, ¬(t.status = TaskStatus.waiting ∧ t.tag = tag)) →
      claimGo m tag l ts = (ts, []) := by
  intro l ts
  induction ts generalizing l with
  | nil => intro _; cases l <;> rfl
  | cons a ts ih =>
    intro h
    cases l with
    | zero => rfl
    | succ l =>
      rw [claimGo, if_neg (h a (List.mem_cons_self a ts)),
        ih (l + 1) (fun t ht => h t (List.mem_cons_of_mem a ht))]

theorem claimGo_all (m tag : String) :
    ∀ (l : Nat) (ts : List Task),
      (∀ t ∈ ts, t.status = TaskStatus.waiting ∧ t.tag = tag) →
      ts.length ≤ l →
      claimGo m tag l ts = (ts.map (claimMark m), ts.map (claimMark m)) := by
  intro l ts
  induction ts generalizing l with
  | nil => intro _ _; cases l <;> rfl
  | cons a ts ih =>
    intro h hl
    cases l with
    | zero => cases hl
    | succ l =>
      rw [claimGo, if_pos (h a (List.mem_cons_self a ts)),
        ih l (fun t ht => h t (List.mem_cons_of_mem a ht)) (Nat.le_of_succ_le_succ hl)]
      rfl

/-! ## Supporting lemmas: store operations preserve the invariants -/

theorem completeOne_tasks_mem (s : TaskStore) (tid : Nat) (out : Outcome) :
    ∀ t ∈ (s.completeOne tid out).tasks, t ∈ s.tasks ∨ t.status.isTerminal = true := by
  intro t ht
  unfold TaskStore.completeOne at ht
  by_cases hany : s.tasks.any (fun t => t.id == tid && !t.status.isTerminal) = true
  · rw [if_pos hany] at ht
    rcases List.mem_map.mp ht with ⟨u, hu, hut⟩
    by_cases hcond : (u.id == tid && !u.status.isTerminal) = true
    · rw [if_pos hcond] at hut
      subst hut
      right
      cases out <;> rfl
    · rw [if_neg hcond] at hut
      subst hut
      exact Or.inl hu
  · rw [if_neg hany] at ht
    exact Or.inl ht

theorem completeOne_tasks_ids (s : TaskStore) (tid : Nat) (out : Outcome) :
    (s.completeOne tid out).tasks.map Task.id = s.tasks.map Task.id := by
  unfold TaskStore.completeOne
  by_cases hany : s.tasks.any (fun t => t.id == tid && !t.status.isTerminal) = true
  · rw [if_pos hany]
    show (s.tasks.map _).map Task.id = s.tasks.map Task.id
    rw [List.map_map]
    apply List.map_congr_left
    intro t _
    by_cases hcond : (t.id == tid && !t.status.isTerminal) = true
    · show Task.id (if _ then _ else t) = t.id
      rw [if_pos hcond]
    · show Task.id (if _ then _ else t) = t.id
      rw [if_neg hcond]
  · rw [if_neg hany]

theorem release_tasks_mem (s : TaskStore) (m : String) :
    ∀ t ∈ (s.release_by_manager m).tasks,
      t ∈ s.tasks ∨ t.status = TaskStatus.waiting := by
  intro t ht
  unfold TaskStore.release_by_manager at ht
  rcases List.mem_map.mp ht with ⟨u, hu, hut⟩
  by_cases hcond : (u.status = TaskStatus.running ∧ u.claimed_by = some m)
  · rw [if_pos hcond] at hut
    subst hut
    exact Or.inr rfl
  · rw [if_neg hcond] at hut
    subst hut
    exact Or.inl hu

theorem release_tasks_ids (s : TaskStore) (m : String) :
    (s.release_by_manager m).tasks.map Task.id = s.tasks.map Task.id := by
  unfold TaskStore.release_by_manager
  show (s.tasks.map _).map Task.id = s.tasks.map Task.id
  rw [List.map_map]
  apply List.map_congr_left
  intro t _
  by_cases hcond : (t.status = TaskStatus.running ∧ t.claimed_by = some m)
  · show Task.id (if _ then _ else t) = t.id
    rw [if_pos hcond]
  · show Task.id (if _ then _ else t) = t.id
    rw [if_neg hcond]

theorem applyOp_preserves_RunningClaimed (s : TaskStore) (op : StoreOp)
    (h : RunningClaimed s) : RunningClaimed (s.applyOp op) := by
  cases op with
  | submit tid tag =>
    intro t ht hrun
    simp only [TaskStore.applyOp, TaskStore.submit] at ht
    by_cases hany : s.tasks.any (fun t => t.id == tid) = true
    · rw [if_pos hany] at ht
      exact h t ht hrun
    · rw [if_neg hany] at ht
      rcases List.mem_append.mp ht with hm | hm
      · exact h t hm hrun
      · rcases List.mem_singleton.mp hm with rfl
        cases hrun
  | claim m tag l =>
    intro t ht hrun
    rcases claimGo_fst_mem m tag l s.tasks t ht with hm | hm
    · exact h t hm hrun
    · rw [hm.2]
      exact Option.some_ne_none m
  | complete rs =>
    have key : ∀ (rs : List (Nat × Outcome)) (s : TaskStore), RunningClaimed s →
        RunningClaimed (s.completeBatch rs) := by
      intro rs
      induction rs with
      | nil => intro s hs; exact hs
      | cons r rs ih =>
        intro s hs
        apply ih
        intro t ht hrun
        rcases completeOne_tasks_mem s r.1 r.2 t ht with hm | hm
        · exact hs t hm hrun
        · rw [hrun] at hm
          cases hm
    exact key rs s h
  | release m =>
    intro t ht hrun
    rcases release_tasks_mem s m t ht with hm | hm
    · exact h t hm hrun
    · rw [hrun] at hm
      cases hm

theorem completeBatch_tasks_ids (rs : List (Nat × Outcome)) (s : TaskStore) :
    (s.completeBatch rs).tasks.map Task.id = s.tasks.map Task.id := by
  induction rs generalizing s with
  | nil => rfl
  | cons r rs ih =>
    show ((s.completeOne r.1 r.2).completeBatch rs).tasks.map Task.id = _
    rw [ih, completeOne_tasks_ids]

theorem applyOp_preserves_nodup_ids (s : TaskStore) (op : StoreOp)
    (h : (s.tasks.map Task.id).Nodup) : ((s.applyOp op).tasks.map Task.id).Nodup := by
  cases op with
  | submit tid tag =>
    simp only [TaskStore.applyOp, TaskStore.submit]
    by_cases hany : s.tasks.any (fun t => t.id == tid) = true
    · rw [if_pos hany]
      exact h
    · rw [if_neg hany]
      show ((s.tasks ++ [Task.mk tid tag TaskStatus.waiting none]).map Task.id).Nodup
      rw [List.map_append]
      rw [List.nodup_append]
      refine ⟨h, List.nodup_singleton tid, ?_⟩
      intro x hx hx'
      rcases List.mem_singleton.mp hx' with rfl
      rcases List.mem_map.mp hx with ⟨u, hu, hui⟩
      simp only [List.any_eq_true, not_exists, not_and] at hany
      have := hany u hu
      rw [beq_iff_eq] at this
      exact this hui
  | claim m tag l =>
    show (((s.claim m tag l).1.tasks).map Task.id).Nodup
    unfold TaskStore.claim
    show ((claimGo m tag l s.tasks).1.map Task.id).Nodup
    rw [claimGo_fst_ids]
    exact h
  | complete rs =>
    show (((s.completeBatch rs).tasks).map Task.id).Nodup
    rw [completeBatch_tasks_ids]
    exact h
  | release m =>
    show (((s.release_by_manager m).tasks).map Task.id).Nodup
    rw [release_tasks_ids]
    exact h

/-! ## Claim theorems -/

/-- C1: in every Task Store state reachable by a serialized interleaving of
the atomic operations (claim / complete / release / submit, as the spec
requires all mutations to be serializable), every RUNNING task has a non-null
`claimed_by` and task ids stay unique; and claims never overlap: whenever two
claim calls (by any two managers) execute one after the other on a store with
unique ids, no task id appears in both returned batches — so no two managers
ever hold RUNNING status for the same task id simultaneously. -/
theorem C1_at_most_one_claim :
    (∀ ops : List StoreOp, RunningClaimed (TaskStore.init.runOps ops) ∧
        ((TaskStore.init.runOps ops).tasks.map Task.id).Nodup) ∧
    (∀ (s : TaskStore) (m1 tag1 : String) (l1 : Nat) (m2 tag2 : String) (l2 : Nat),
      (s.tasks.map Task.id).Nodup →
      ∀ t1 ∈ (s.claim m1 tag1 l1).2,
        ∀ t2 ∈ ((s.claim m1 tag1 l1).1.claim m2 tag2 l2).2, t1.id ≠ t2.id) := by
  constructor
  · have key : ∀ (ops : List StoreOp) (s : TaskStore),
        RunningClaimed s → (s.tasks.map Task.id).Nodup →
        RunningClaimed (s.runOps ops) ∧ ((s.runOps ops).tasks.map Task.id).Nodup := by
      intro ops
      induction ops with
      | nil => intro s h1 h2; exact ⟨h1, h2⟩
      | cons op ops ih =>
        intro s h1 h2
        exact ih _ (applyOp_preserves_RunningClaimed s op h1)
          (applyOp_preserves_nodup_ids s op h2)
    intro ops
    exact key ops TaskStore.init (fun t ht => absurd ht (List.not_mem_nil t))
      List.nodup_nil
  · intro s m1 tag1 l1 m2 tag2 l2 hnodup t1 ht1 t2 ht2 hcontra
    have ht1run : t1.status = TaskStatus.running :=
      (claimGo_snd_claimed m1 tag1 l1 s.tasks t1 ht1).1
    have ht1mem : t1 ∈ (s.claim m1 tag1 l1).1.tasks :=
      claimGo_snd_sub_fst m1 tag1 l1 s.tasks t1 ht1
    rcases claimGo_snd_was_waiting m2 tag2 l2 ((s.claim m1 tag1 l1).1.tasks) t2 ht2 with
      ⟨u, hu, huid, huw⟩
    have hnodup1 : (((s.claim m1 tag1 l1).1.tasks).map Task.id).Nodup := by
      show ((claimGo m1 tag1 l1 s.tasks).1.map Task.id).Nodup
      rw [claimGo_fst_ids]
      exact hnodup
    have heq : t1 = u :=
      List.inj_on_of_nodup_map hnodup1 ht1mem hu (hcontra.trans huid.symm)
    rw [heq, huw] at ht1run
    cases ht1run

/-- Sample store for C1: two WAITING tasks with distinct ids. -/
def storeW : TaskStore :=
  ⟨[⟨1, "other", TaskStatus.waiting, none⟩, ⟨2, "other", TaskStatus.waiting, none⟩], 0, 0⟩

/-- C1 witness: on a concrete store with two waiting tasks, two consecutive
single-task claims by managers A and B return tasks with different ids. -/
theorem C1_at_most_one_claim_witness :
    (storeW.tasks.map Task.id).Nodup ∧
    (Task.mk 1 "other" TaskStatus.running (some "A")).id ≠
      (Task.mk 2 "other" TaskStatus.running (some "B")).id :=
  ⟨by decide,
    C1_at_most_one_claim.2 storeW "A" "other" 1 "B" "other" 1 (by decide)
      (Task.mk 1 "other" TaskStatus.running (some "A")) (by decide)
      (Task.mk 2 "other" TaskStatus.running (some "B")) (by decide)⟩

/-- C2: the Task Store `complete()` operation is idempotent: replaying any
batch of `(task_id, outcome)` results against the store a second time leaves
the store (tasks and completed/failed tallies) exactly as after the first
call — a no-op, not an error, with no double counting. -/
theorem C2_complete_idempotent (s : TaskStore) (rs : List (Nat × Outcome)) :
    (s.completeBatch rs).completeBatch rs = s.completeBatch rs :=
  completeBatch_noop rs (s.completeBatch rs) (fun r hr => completeBatch_makes_terminal rs s r hr)

/-- C8: a caller-supplied `max_tasks` is clamped at construction to the
internal ceiling: every constructed QueueManager satisfies the bound, and in
particular requesting `10^9` yields an effective `max_tasks` strictly below
`10^9`. -/
theorem C8_max_tasks_clamped :
    (∀ name tag requested retries,
      (QueueManager.build name tag requested retries).max_tasks ≤ maxTasksCeiling) ∧
    (QueueManager.build "manager" "tag" (10 ^ 9) 1).max_tasks < 10 ^ 9 := by
  constructor
  · intro name tag requested retries
    simp [QueueManager.build, clampMaxTasks]
  · show min (10 ^ 9) maxTasksCeiling < 10 ^ 9
    simp [maxTasksCeiling]

/-! ## Supporting lemmas: association lists -/

theorem find_set_self {α : Type} (l : List (String × α)) (k : String) (v : α)
    (hany : l.any (fun p => p.1 == k) = true) :
    (l.map (fun p => if p.1 == k then (k, v) else p)).find? (fun p => p.1 == k) =
      some (k, v) := by
  induction l with
  | nil => cases hany
  | cons p l ih =>
    by_cases hp : (p.1 == k) = true
    · simp [List.find?, hp]
    · have htail : l.any (fun p => p.1 == k) = true := by
        simpa [List.any_cons, hp] using hany
      simpa [List.find?, hp] using ih htail

theorem find_cons {α : Type} (p : α → Bool) (a : α) (l : List α) :
    (a :: l).find? p = if p a then some a else l.find? p := by
  by_cases h : p a = true
  · simp [List.find?, h]
  · simp [List.find?, h]

theorem find_append_some {α : Type} (l₁ l₂ : List α) (p : α → Bool) (a : α)
    (h : l₁.find? p = some a) : (l₁ ++ l₂).find? p = some a := by
  induction l₁ with
  | nil => cases h
  | cons b l ih =>
    rw [find_cons] at h
    rw [List.cons_append, find_cons]
    by_cases hb : p b = true
    · rw [if_pos hb] at h ⊢
      exact h
    · rw [if_neg hb] at h ⊢
      exact ih h

theorem find_set_other {α : Type} (l : List (String × α)) (k k' : String) (v : α)
    (h : k' ≠ k) :
    (l.map (fun p => if p.1 == k then (k, v) else p)).find? (fun p => p.1 == k') =
      l.find? (fun p => p.1 == k') := by
  induction l with
  | nil => rfl
  | cons p l ih =>
    rw [List.map_cons, find_cons, find_cons]
    by_cases hp : (p.1 == k) = true
    · have hpk : p.1 = k := by simpa using hp
      have h1 : (k == k') = false := by
        simp only [beq_eq_false_iff_ne, ne_eq]
        exact fun he => h he.symm
      have h2 : (p.1 == k') = false := by rw [hpk]; exact h1
      rw [if_pos hp]
      show (if ((k, v).1 == k') = true then _ else _) = _
      simp only [h1, h2, Bool.false_eq_true, if_false]
      exact ih
    · rw [if_neg hp]
      by_cases hp' : (p.1 == k') = true
      · rw [if_pos hp', if_pos hp']
      · rw [if_neg hp', if_neg hp']
        exact ih

theorem find_append_none {α : Type} (l₁ l₂ : List α) (p : α → Bool)
    (h : l₁.find? p = none) : (l₁ ++ l₂).find? p = l₂.find? p := by
  induction l₁ with
  | nil => rfl
  | cons a l ih =>
    by_cases ha : p a = true
    · rw [List.find?_eq_none] at h
      exact absurd ha (h a (by simp))
    · simp only [List.find?, ha] at h
      simp only [List.cons_append, List.find?, ha]
      exact ih h

theorem alistGet_set_self {α : Type} (l : List (String × α)) (k : String) (v : α) :
    alistGet (alistSet l k v) k = some v := by
  unfold alistGet alistSet
  by_cases hany : l.any (fun p => p.1 == k) = true
  · rw [if_pos hany, find_set_self l k v hany]
    rfl
  · rw [if_neg hany]
    have hnone : l.find? (fun p => p.1 == k) = none := by
      rw [List.find?_eq_none]
      intro p hp
      simp only [List.any_eq_true, not_exists, not_and] at hany
      simpa using hany p hp
    rw [find_append_none _ _ _ hnone]
    simp [List.find?]

theorem alistGet_set_other {α : Type} (l : List (String × α)) (k k' : String) (v : α)
    (h : k' ≠ k) : alistGet (alistSet l k v) k' = alistGet l k' := by
  unfold alistGet alistSet
  by_cases hany : l.any (fun p => p.1 == k) = true
  · rw [if_pos hany, find_set_other l k k' v h]
  · rw [if_neg hany]
    have hnone : List.find? (fun p => p.1 == k') [(k, v)] = none := by
      have hk : (k == k') = false := by
        simp only [beq_eq_false_iff_ne, ne_eq]
        exact fun he => h he.symm
      show List.find? (fun p => p.1 == k') ((k, v) :: []) = none
      rw [find_cons]
      show (if ((k, v).1 == k') = true then _ else _) = _
      simp only [hk, Bool.false_eq_true, if_false]
      rfl
    cases hfind : l.find? (fun p => p.1 == k') with
    | none => rw [find_append_none _ _ _ hfind, hnone]
    | some q => rw [find_append_some _ _ _ _ hfind]

/-! ## Supporting lemmas: BaseProcedureDataset -/

theorem setAdd_mem (l : List String) (x : String) : (setAdd l x).contains x = true := by
  unfold setAdd
  by_cases h : l.contains x = true
  · rw [if_pos h]
    exact h
  · rw [if_neg h]
    simp [List.contains_eq_any_beq]

theorem setAdd_idem (l : List String) (x : String) : setAdd (setAdd l x) x = setAdd l x := by
  have h := setAdd_mem l x
  show (if (setAdd l x).contains x = true then setAdd l x else setAdd l x ++ [x]) = setAdd l x
  rw [if_pos h]

theorem computeEntry_count (spec : ProcSpec) (subset : Option (List String))
    (f : ProcSpec → DSEntry → Nat) (e : DSEntry) :
    (computeEntry spec subset f e).2 =
      if (!(subsetSkip subset e.name) && !((alistGet e.object_map spec.name).isSome)) = true
      then 1 else 0 := by
  unfold computeEntry
  by_cases h1 : subsetSkip subset e.name = true
  · simp [h1]
  · by_cases h2 : (alistGet e.object_map spec.name).isSome = true
    · simp [h1, h2]
    · simp [h1, h2]

theorem computeEntry_idem (spec : ProcSpec) (subset : Option (List String))
    (f g : ProcSpec → DSEntry → Nat) (e : DSEntry) :
    computeEntry spec subset g (computeEntry spec subset f e).1 =
      ((computeEntry spec subset f e).1, 0) := by
  unfold computeEntry
  by_cases h1 : subsetSkip subset e.name = true
  · rw [if_pos h1, if_pos h1]
  · rw [if_neg h1]
    by_cases h2 : (alistGet e.object_map spec.name).isSome = true
    · rw [if_pos h2, if_neg h1, if_pos h2]
    · rw [if_neg h2]
      have hname : ({ e with object_map := alistSet e.object_map spec.name (f spec e)} :
          DSEntry).name = e.name := rfl
      rw [hname, if_neg h1]
      have hpresent : (alistGet ({ e with
          object_map := alistSet e.object_map spec.name (f spec e)} : DSEntry).object_map
          spec.name).isSome = true := by
        show (alistGet (alistSet e.object_map spec.name (f spec e)) spec.name).isSome = true
        rw [alistGet_set_self]
        rfl
      rw [if_pos hpresent]

theorem sum_compute_counts (spec : ProcSpec) (subset : Option (List String))
    (f : ProcSpec → DSEntry → Nat) (l : List (String × DSEntry)) :
    (l.map (fun kv => (kv.1, computeEntry spec subset f kv.2))).foldr
        (fun kv acc => kv.2.2 + acc) 0 =
      (l.filter (fun kv => !(subsetSkip subset kv.2.name) &&
        !((alistGet kv.2.object_map spec.name).isSome))).length := by
  induction l with
  | nil => rfl
  | cons kv l ih =>
    simp only [List.map_cons, List.foldr_cons, List.filter_cons]
    rw [computeEntry_count]
    by_cases h : (!(subsetSkip subset kv.2.name) &&
        !((alistGet kv.2.object_map spec.name).isSome)) = true
    · rw [if_pos h, if_pos h, ih]
      simp [Nat.add_comm]
    · rw [if_neg h, if_neg h, ih]
      simp

/-! ## Claim theorems: BaseProcedureDataset -/

/-- C9: `BaseProcedureDataset.compute` is idempotent on records: it submits
exactly the entries (within the optional subset) whose `object_map` lacks a
record for the requested specification, returns their number, and a second
`compute` with the same specification and subset returns 0 and leaves the
whole dataset — in particular every entry's `object_map` — unchanged. -/
theorem C9_compute_idempotent (ds ds1 : ProcedureDataset) (specification : String)
    (subset : Option (List String)) (f g : ProcSpec → DSEntry → Nat) (n : Nat)
    (spec : ProcSpec)
    (hspec : ds.get_specification (pyLower specification) = Except.ok spec)
    (h : ds.compute specification subset f = Except.ok (ds1, n)) :
    n = (ds.records.filter (fun kv => !(subsetSkip subset kv.2.name) &&
          !((alistGet kv.2.object_map spec.name).isSome))).length ∧
    ds1.compute specification subset g = Except.ok (ds1, 0) := by
  unfold ProcedureDataset.compute at h ⊢
  dsimp only at h ⊢
  rw [hspec] at h
  simp only [List.sum_eq_foldr] at h
  rw [Except.ok.injEq, Prod.mk.injEq] at h
  obtain ⟨hds, hn⟩ := h
  constructor
  · rw [← hn]
    rw [List.foldr_map]
    exact sum_compute_counts spec subset f ds.records
  · have hspecs1 : ds1.specs = ds.specs := by rw [← hds]
    have hget1 : ds1.get_specification (pyLower specification) = Except.ok spec := by
      unfold ProcedureDataset.get_specification at hspec ⊢
      rw [hspecs1]
      exact hspec
    rw [hget1]
    dsimp only
    have hrec1 : ds1.records = (ds.records.map
        (fun kv => (kv.1, computeEntry spec subset f kv.2))).map
          (fun kv => (kv.1, kv.2.1)) := by rw [← hds]
    have hhist1 : ds1.history = setAdd ds.history (pyLower specification) := by rw [← hds]
    have hpairs : ds1.records.map (fun kv => (kv.1, computeEntry spec subset g kv.2)) =
        ds1.records.map (fun kv => (kv.1, (kv.2, 0))) := by
      rw [hrec1, List.map_map, List.map_map, List.map_map, List.map_map]
      apply List.map_congr_left
      intro kv _
      show ((kv.1, computeEntry spec subset g (computeEntry spec subset f kv.2).1) :
          String × (DSEntry × Nat)) = (kv.1, ((computeEntry spec subset f kv.2).1, 0))
      rw [computeEntry_idem]
    rw [hpairs, List.map_map, List.map_map]
    have hrecs2 : ds1.records.map
        ((fun kv => (kv.1, kv.2.1)) ∘ (fun kv => (kv.1, ((kv.2 : DSEntry), (0 : Nat))))) =
        ds1.records := by
      apply List.map_id'
    have hsum2 : (ds1.records.map
        ((fun kv => kv.2.2) ∘ (fun kv => (kv.1, ((kv.2 : DSEntry), (0 : Nat)))))).sum = 0 := by
      apply List.sum_eq_zero
      intro x hx
      rcases List.mem_map.mp hx with ⟨kv, _, hkv⟩
      rw [← hkv]
      rfl
    rw [hrecs2, hsum2]
    have hhist2 : setAdd ds1.history (pyLower specification) =
        setAdd ds.history (pyLower specification) := by
      rw [hhist1, setAdd_idem]
    rw [hhist2]
    rw [Except.ok.injEq, Prod.mk.injEq]
    constructor
    · rw [← hds]
    · rfl

/-- C10: specification and entry lookup in `BaseProcedureDataset` is
case-insensitive and total via exceptions: `_add_specification` stores names
lowercased and raises `KeyError` when the lowercased name already exists and
`overwrite` is false; `get_specification` and `get_entry` look up
`name.lower()`, so lookups differing only in case agree, and both raise
`KeyError` when the name is absent. -/
theorem C10_case_insensitive_lookup :
    (∀ ds name sp ow ds1, ProcedureDataset._add_specification ds name sp ow = Except.ok ds1 →
        alistGet ds1.specs (pyLower name) = some sp) ∧
    (∀ ds name sp, (alistGet ds.specs (pyLower name)).isSome = true →
        ∃ e, ProcedureDataset._add_specification ds name sp false = Except.error e) ∧
    (∀ (ds : ProcedureDataset) name other, pyLower name = pyLower other →
        ds.get_specification name = ds.get_specification other ∧
        ds.get_entry name = ds.get_entry other) ∧
    (∀ (ds : ProcedureDataset) name, alistGet ds.specs (pyLower name) = none →
        ∃ e, ds.get_specification name = Except.error e) ∧
    (∀ (ds : ProcedureDataset) name, alistGet ds.records (pyLower name) = none →
        ∃ e, ds.get_entry name = Except.error e) := by
  refine ⟨?_, ?_, ?_, ?_, ?_⟩
  · intro ds name sp ow ds1 h
    unfold ProcedureDataset._add_specification at h
    by_cases hc : ((alistGet ds.specs (pyLower name)).isSome = true ∧ ¬ow = true)
    · rw [if_pos hc] at h
      cases h
    · rw [if_neg hc] at h
      rw [Except.ok.injEq] at h
      rw [← h]
      exact alistGet_set_self ds.specs (pyLower name) sp
  · intro ds name sp hsome
    unfold ProcedureDataset._add_specification
    rw [if_pos ⟨hsome, by simp⟩]
    exact ⟨_, rfl⟩
  · intro ds name other hl
    unfold ProcedureDataset.get_specification ProcedureDataset.get_entry
    rw [hl]
    exact ⟨rfl, rfl⟩
  · intro ds name hnone
    unfold ProcedureDataset.get_specification
    rw [hnone]
    exact ⟨_, rfl⟩
  · intro ds name hnone
    unfold ProcedureDataset.get_entry
    rw [hnone]
    exact ⟨_, rfl⟩

/-- C3: a network failure during the push of a locally-completed result does
not drop it: after the failing `update()` the task sits in
`_stale_payload_tracking` (attempt counter 1) and is out of `current_tasks`,
with the stale-jobs gauge still 0 and the server untouched; when the retry on
the next `update()` cycle fails as well, the payload leaves tracking and the
stale-jobs gauge becomes 1.  `update` is a total function, so no exception
can escape the manager loop on this path. -/
theorem C3_stale_not_dropped (m : QueueManager) (srv : Server) (tid : Nat) (out : Outcome)
    (now1 now2 : Nat)
    (hretries : m.server_error_retries = 1)
    (hcur : m.current_tasks = [tid])
    (htrack : m._stale_payload_tracking = [])
    (hstale : m.n_stale_jobs = 0) :
    ((m.update srv false [(tid, out)] now1).1.current_tasks = [] ∧
      (m.update srv false [(tid, out)] now1).1._stale_payload_tracking = [⟨tid, 1, out⟩] ∧
      (m.update srv false [(tid, out)] now1).1.n_stale_jobs = 0 ∧
      (m.update srv false [(tid, out)] now1).2 = srv) ∧
    (((m.update srv false [(tid, out)] now1).1.update srv false [] now2).1.current_tasks = []
      ∧
      ((m.update srv false [(tid, out)] now1).1.update srv false []
        now2).1._stale_payload_tracking = [] ∧
      ((m.update srv false [(tid, out)] now1).1.update srv false [] now2).1.n_stale_jobs = 1
      ∧
      ((m.update srv false [(tid, out)] now1).1.update srv false [] now2).2 = srv) := by
  obtain ⟨nm, qt, mt, sr, cur, trk, nst⟩ := m
  simp only at hretries hcur htrack hstale
  subst hretries hcur htrack hstale
  refine ⟨⟨?_, ?_, ?_, ?_⟩, ?_, ?_, ?_, ?_⟩ <;>
    simp [QueueManager.update, QueueManager.retryStales]

/-- Sample manager for the stale-payload scenarios: one claimed task (id 7),
retry budget 1. -/
def mgrW : QueueManager := ⟨"W", "other", 5, 1, [7], [], 0⟩

/-- Sample server for the stale-payload scenarios: task 7 RUNNING and claimed
by manager W, which the registry lists as ACTIVE. -/
def srvW : Server :=
  ⟨⟨[⟨7, "other", TaskStatus.running, some "W"⟩], 0, 0⟩,
    [⟨"W", "other", ManagerStatus.active, 1, 0, 0, "user", 0⟩]⟩

/-- C3 witness: the stale-payload path evaluated on the concrete manager W
whose push of the finished task 7 fails twice. -/
theorem C3_stale_not_dropped_witness :
    ((mgrW.update srvW false [(7, Outcome.success)] 10).1.current_tasks = [] ∧
      (mgrW.update srvW false [(7, Outcome.success)] 10).1._stale_payload_tracking =
        [⟨7, 1, Outcome.success⟩] ∧
      (mgrW.update srvW false [(7, Outcome.success)] 10).1.n_stale_jobs = 0 ∧
      (mgrW.update srvW false [(7, Outcome.success)] 10).2 = srvW) ∧
    (((mgrW.update srvW false [(7, Outcome.success)] 10).1.update srvW false []
        20).1.current_tasks = [] ∧
      ((mgrW.update srvW false [(7, Outcome.success)] 10).1.update srvW false []
        20).1._stale_payload_tracking = [] ∧
      ((mgrW.update srvW false [(7, Outcome.success)] 10).1.update srvW false []
        20).1.n_stale_jobs = 1 ∧
      ((mgrW.update srvW false [(7, Outcome.success)] 10).1.update srvW false [] 20).2 =
        srvW) :=
  C3_stale_not_dropped mgrW srvW 7 Outcome.success 10 20 rfl rfl rfl rfl

theorem status_ne_waiting_of_terminal (st : TaskStatus) (h : st.isTerminal = true) :
    ¬st = TaskStatus.waiting := by
  intro he
  subst he
  cases h

theorem completeBatch_no_waiting (rs : List (Nat × Outcome)) (s : TaskStore) (tag : String)
    (h : ∀ t ∈ s.tasks, ¬(t.status = TaskStatus.waiting ∧ t.tag = tag)) :
    ∀ t ∈ (s.completeBatch rs).tasks, ¬(t.status = TaskStatus.waiting ∧ t.tag = tag) := by
  induction rs generalizing s with
  | nil => exact h
  | cons r rs ih =>
    apply ih
    intro t ht
    rcases completeOne_tasks_mem s r.1 r.2 t ht with hm | hm
    · exact h t hm
    · intro hc
      exact status_ne_waiting_of_terminal t.status hm hc.1

/-- C4: when the push path fails exactly once and then succeeds, the locally
completed result is confirmed server-side within two `update()` cycles: after
the second `update()` both `current_tasks` and `_stale_payload_tracking` are
empty, the stale-jobs gauge is 0, and every copy of the task in the store is
terminal (marked COMPLETE/ERROR). -/
theorem C4_stale_convergence (m : QueueManager) (srv : Server) (tid : Nat) (out : Outcome)
    (now1 now2 : Nat)
    (hretries : m.server_error_retries = 1)
    (hcur : m.current_tasks = [tid])
    (htrack : m._stale_payload_tracking = [])
    (hstale : m.n_stale_jobs = 0)
    (hnowait : ∀ t ∈ srv.store.tasks,
      ¬(t.status = TaskStatus.waiting ∧ t.tag = m.queue_tag)) :
    ((m.update srv false [(tid, out)] now1).1.update
        (m.update srv false [(tid, out)] now1).2 true [] now2).1.current_tasks = [] ∧
    ((m.update srv false [(tid, out)] now1).1.update
        (m.update srv false [(tid, out)] now1).2 true []
        now2).1._stale_payload_tracking = [] ∧
    ((m.update srv false [(tid, out)] now1).1.update
        (m.update srv false [(tid, out)] now1).2 true [] now2).1.n_stale_jobs = 0 ∧
    IdTerminal ((m.update srv false [(tid, out)] now1).1.update
        (m.update srv false [(tid, out)] now1).2 true [] now2).2.store tid := by
  obtain ⟨nm, qt, mt, sr, cur, trk, nst⟩ := m
  simp only at hretries hcur htrack hstale hnowait
  subst hretries hcur htrack hstale
  have hng : claimGo nm qt mt ((srv.store.completeBatch [(tid, out)]).tasks) =
      ((srv.store.completeBatch [(tid, out)]).tasks, []) :=
    claimGo_nomatch nm qt mt _
      (completeBatch_no_waiting [(tid, out)] srv.store qt hnowait)
  refine ⟨?_, ?_, ?_, ?_⟩ <;>
    simp [QueueManager.update, QueueManager.retryStales, TaskStore.claim, hng]
  exact completeBatch_makes_terminal [(tid, out)] srv.store (tid, out) (by simp)

/-- C4 witness: the fail-once-then-succeed push evaluated on the concrete
manager W and task 7. -/
theorem C4_stale_convergence_witness :
    ((mgrW.update srvW false [(7, Outcome.success)] 10).1.update
        (mgrW.update srvW false [(7, Outcome.success)] 10).2 true [] 20).1.current_tasks =
      [] ∧
    ((mgrW.update srvW false [(7, Outcome.success)] 10).1.update
        (mgrW.update srvW false [(7, Outcome.success)] 10).2 true []
        20).1._stale_payload_tracking = [] ∧
    ((mgrW.update srvW false [(7, Outcome.success)] 10).1.update
        (mgrW.update srvW false [(7, Outcome.success)] 10).2 true [] 20).1.n_stale_jobs =
      0 ∧
    IdTerminal ((mgrW.update srvW false [(7, Outcome.success)] 10).1.update
        (mgrW.update srvW false [(7, Outcome.success)] 10).2 true [] 20).2.store 7 :=
  C4_stale_convergence mgrW srvW 7 Outcome.success 10 20 rfl rfl rfl rfl (by decide)

/-! ## Supporting lemmas: releasing orphaned tasks -/

theorem release_keep_of_not_running (s : TaskStore) (mname : String) (t : Task)
    (ht : t ∈ s.tasks) (h : ¬t.status = TaskStatus.running) :
    t ∈ (s.release_by_manager mname).tasks := by
  refine List.mem_map.mpr ⟨t, ht, ?_⟩
  rw [if_neg]
  intro hc
  exact h hc.1

theorem release_keep_of_other (s : TaskStore) (mname : String) (t : Task)
    (ht : t ∈ s.tasks) (h : ¬t.claimed_by = some mname) :
    t ∈ (s.release_by_manager mname).tasks := by
  refine List.mem_map.mpr ⟨t, ht, ?_⟩
  rw [if_neg]
  intro hc
  exact h hc.2

theorem release_reverts (s : TaskStore) (mname : String) (t : Task)
    (ht : t ∈ s.tasks) (hrun : t.status = TaskStatus.running)
    (hcl : t.claimed_by = some mname) :
    ({ t with status := TaskStatus.waiting, claimed_by := none } : Task) ∈
      (s.release_by_manager mname).tasks := by
  refine List.mem_map.mpr ⟨t, ht, ?_⟩
  rw [if_pos ⟨hrun, hcl⟩]

theorem foldRelease_keep_not_running (gone : List ManagerRec) (s : TaskStore) (t : Task)
    (ht : t ∈ s.tasks) (h : ¬t.status = TaskStatus.running) :
    t ∈ (gone.foldl (fun st r => st.release_by_manager r.name) s).tasks := by
  induction gone generalizing s with
  | nil => exact ht
  | cons g gone ih => exact ih _ (release_keep_of_not_running s g.name t ht h)

theorem foldRelease_keep_other (gone : List ManagerRec) (s : TaskStore) (t : Task)
    (ht : t ∈ s.tasks) (h : ∀ g ∈ gone, ¬t.claimed_by = some g.name) :
    t ∈ (gone.foldl (fun st r => st.release_by_manager r.name) s).tasks := by
  induction gone generalizing s with
  | nil => exact ht
  | cons g gone ih =>
    exact ih _ (release_keep_of_other s g.name t ht (h g (List.mem_cons_self g gone)))
      (fun g' hg' => h g' (List.mem_cons_of_mem g hg'))

theorem foldRelease_reverts (gone : List ManagerRec) (s : TaskStore) (t : Task) (n : String)
    (ht : t ∈ s.tasks) (hrun : t.status = TaskStatus.running)
    (hcl : t.claimed_by = some n) (hg : n ∈ gone.map ManagerRec.name) :
    ({ t with status := TaskStatus.waiting, claimed_by := none } : Task) ∈
      (gone.foldl (fun st r => st.release_by_manager r.name) s).tasks := by
  induction gone generalizing s with
  | nil => cases hg
  | cons g gone ih =>
    by_cases hname : g.name = n
    · have h1 : ({ t with status := TaskStatus.waiting, claimed_by := none } : Task) ∈
          (s.release_by_manager g.name).tasks := by
        apply release_reverts s g.name t ht hrun
        rw [hname]
        exact hcl
      apply foldRelease_keep_not_running gone _ _ h1
      intro hc
      cases hc
    · have h1 : t ∈ (s.release_by_manager g.name).tasks := by
        apply release_keep_of_other s g.name t ht
        rw [hcl]
        intro hc
        exact hname (Option.some.inj hc).symm
      have hg' : n ∈ gone.map ManagerRec.name := by
        rcases List.mem_cons.mp hg with h' | h'
        · exact absurd h'.symm hname
        · exact h'
      exact ih _ h1 hg'

/-! ## Claim theorem: heartbeat sweep -/

/-- C6: once the heartbeat timeout has elapsed since a registered ACTIVE
manager last heartbeat, any subsequent sweep marks it INACTIVE and reverts
exactly its RUNNING tasks to WAITING: its RUNNING tasks revert, tasks not
claimed by any lapsed manager survive unchanged, and non-RUNNING tasks
survive unchanged; a manager whose heartbeat is within the timeout is never
deactivated by the sweep. -/
theorem C6_heartbeat_timeout (srv : Server) (now timeout : Nat) (r : ManagerRec)
    (hr : r ∈ srv.registry) (hact : r.status = ManagerStatus.active) :
    (timeout < now - r.last_heartbeat →
      ({ r with status := ManagerStatus.inactive } : ManagerRec) ∈
        (srv.sweep now timeout).registry ∧
      (∀ t ∈ srv.store.tasks, t.status = TaskStatus.running →
        t.claimed_by = some r.name →
        ({ t with status := TaskStatus.waiting, claimed_by := none } : Task) ∈
          (srv.sweep now timeout).store.tasks) ∧
      (∀ t ∈ srv.store.tasks,
        (∀ r' ∈ srv.registry, lapsed now timeout r' → ¬t.claimed_by = some r'.name) →
        t ∈ (srv.sweep now timeout).store.tasks) ∧
      (∀ t ∈ srv.store.tasks, ¬t.status = TaskStatus.running →
        t ∈ (srv.sweep now timeout).store.tasks)) ∧
    (¬(timeout < now - r.last_heartbeat) → r ∈ (srv.sweep now timeout).registry) := by
  constructor
  · intro htime
    have hlap : lapsed now timeout r := ⟨hact, htime⟩
    refine ⟨?_, ?_, ?_, ?_⟩
    · show _ ∈ List.map _ srv.registry
      refine List.mem_map.mpr ⟨r, hr, ?_⟩
      rw [if_pos hlap]
    · intro t ht hrun hcl
      apply foldRelease_reverts _ _ _ r.name ht hrun hcl
      refine List.mem_map.mpr ⟨r, ?_, rfl⟩
      rw [List.mem_filter]
      exact ⟨hr, by rw [decide_eq_true_eq]; exact hlap⟩
    · intro t ht hother
      apply foldRelease_keep_other _ _ _ ht
      intro g hg
      rw [List.mem_filter] at hg
      exact hother g hg.1 (of_decide_eq_true hg.2)
    · intro t ht hnrun
      exact foldRelease_keep_not_running _ _ _ ht hnrun
  · intro htime
    show _ ∈ List.map _ srv.registry
    refine List.mem_map.mpr ⟨r, hr, ?_⟩
    rw [if_neg]
    intro hc
    exact htime hc.2

/-- C6 witness: a single-manager server whose manager last heartbeat at time
0; a sweep at time 100 with timeout 50 deactivates it and reverts its RUNNING
task, while a sweep at time 30 leaves it ACTIVE. -/
theorem C6_heartbeat_timeout_witness :
    ((50 : Nat) < 100 - 0 ∧
      ({ name := "W", tag := "other", status := ManagerStatus.inactive, submitted := 1,
         completed := 0, failed := 0, username := "user", last_heartbeat := 0 } :
        ManagerRec) ∈ (srvW.sweep 100 50).registry ∧
      ({ id := 7, tag := "other", status := TaskStatus.waiting, claimed_by := none } :
        Task) ∈ (srvW.sweep 100 50).store.tasks) ∧
    (¬((50 : Nat) < 30 - 0) ∧
      ({ name := "W", tag := "other", status := ManagerStatus.active, submitted := 1,
         completed := 0, failed := 0, username := "user", last_heartbeat := 0 } :
        ManagerRec) ∈ (srvW.sweep 30 50).registry) := by
  have h100 := C6_heartbeat_timeout srvW 100 50
    ⟨"W", "other", ManagerStatus.active, 1, 0, 0, "user", 0⟩ (by decide) rfl
  have h30 := C6_heartbeat_timeout srvW 30 50
    ⟨"W", "other", ManagerStatus.active, 1, 0, 0, "user", 0⟩ (by decide) rfl
  refine ⟨⟨by decide, ?_, ?_⟩, by decide, ?_⟩
  · exact (h100.1 (by decide)).1
  · exact (h100.1 (by decide)).2.1 ⟨7, "other", TaskStatus.running, some "W"⟩ (by decide)
      rfl rfl
  · exact h30.2 (by decide)

/-! ## Claim theorem: shutdown -/

/-- C7: a QueueManager holding `k` uncompleted claimed tasks (nothing locally
complete or stale) reports `nshutdown = k` from `shutdown()`; the registry
afterwards still lists the manager — deactivated, not deleted (same registry
length, record present with status INACTIVE) — its RUNNING tasks revert to
WAITING, and a fresh manager can then claim exactly those tasks and complete
them (every claimed id is claimable and, once pushed, terminal). -/
theorem C7_shutdown_returns_tasks (m : QueueManager) (srv : Server) (rec : ManagerRec)
    (hrec : rec ∈ srv.registry) (hname : rec.name = m.name)
    (htrack : m._stale_payload_tracking = []) (hstale : m.n_stale_jobs = 0) :
    (m.shutdown srv).2.2 = m.current_tasks.length ∧
    ({ rec with status := ManagerStatus.inactive } : ManagerRec) ∈
      (m.shutdown srv).2.1.registry ∧
    (m.shutdown srv).2.1.registry.length = srv.registry.length ∧
    (∀ t ∈ srv.store.tasks, t.status = TaskStatus.running →
      t.claimed_by = some m.name →
      ({ t with status := TaskStatus.waiting, claimed_by := none } : Task) ∈
        (m.shutdown srv).2.1.store.tasks) ∧
    (∀ (fresh : String) (limit : Nat),
      (∀ t ∈ srv.store.tasks, t.status = TaskStatus.running ∧
        t.claimed_by = some m.name ∧ t.tag = m.queue_tag) →
      srv.store.tasks.length ≤ limit →
      ((m.shutdown srv).2.1.store.claim fresh m.queue_tag limit).2.map Task.id =
        srv.store.tasks.map Task.id ∧
      (∀ (out : Outcome) (tid : Nat), tid ∈ srv.store.tasks.map Task.id →
        IdTerminal ((((m.shutdown srv).2.1.store.claim fresh m.queue_tag
            limit).1).completeBatch (srv.store.tasks.map (fun t => (t.id, out)))) tid)) := by
  refine ⟨?_, ?_, ?_, ?_, ?_⟩
  · show m.current_tasks.length + m._stale_payload_tracking.length + m.n_stale_jobs = _
    rw [htrack, hstale]
    rfl
  · show _ ∈ List.map _ srv.registry
    refine List.mem_map.mpr ⟨rec, hrec, ?_⟩
    rw [if_pos hname]
  · exact List.length_map srv.registry _
  · intro t ht hrun hcl
    exact release_reverts srv.store m.name t ht hrun hcl
  · intro fresh limit hall hlim
    have hstore : (m.shutdown srv).2.1.store.tasks = srv.store.tasks.map
        (fun t => ({ t with status := TaskStatus.waiting, claimed_by := none } : Task)) := by
      show (srv.store.release_by_manager m.name).tasks = _
      unfold TaskStore.release_by_manager
      apply List.map_congr_left
      intro t ht
      rw [if_pos ⟨(hall t ht).1, (hall t ht).2.1⟩]
    have hwait : ∀ t ∈ (m.shutdown srv).2.1.store.tasks,
        t.status = TaskStatus.waiting ∧ t.tag = m.queue_tag := by
      intro t ht
      rw [hstore] at ht
      rcases List.mem_map.mp ht with ⟨u, hu, hut⟩
      subst hut
      exact ⟨rfl, (hall u hu).2.2⟩
    have hlen : (m.shutdown srv).2.1.store.tasks.length ≤ limit := by
      rw [hstore, List.length_map]
      exact hlim
    have hclaim := claimGo_all fresh m.queue_tag limit (m.shutdown srv).2.1.store.tasks
      hwait hlen
    constructor
    · show (claimGo fresh m.queue_tag limit (m.shutdown srv).2.1.store.tasks).2.map
        Task.id = _
      rw [hclaim]
      rw [hstore, List.map_map, List.map_map]
      rfl
    · intro out tid htid
      rcases List.mem_map.mp htid with ⟨u, hu, hut⟩
      have : (tid, out) ∈ srv.store.tasks.map (fun t => (t.id, out)) :=
        List.mem_map.mpr ⟨u, hu, by rw [hut]⟩
      exact completeBatch_makes_terminal _ _ (tid, out) this

/-- C7 witness: manager W holds one uncompleted claimed task; shutdown
reports 1, the registry keeps W as INACTIVE, task 7 reverts to WAITING, and a
fresh manager F can claim it and complete it. -/
theorem C7_shutdown_returns_tasks_witness :
    (mgrW.shutdown srvW).2.2 = mgrW.current_tasks.length ∧
    ({ name := "W", tag := "other", status := ManagerStatus.inactive, submitted := 1,
       completed := 0, failed := 0, username := "user", last_heartbeat := 0 } :
      ManagerRec) ∈ (mgrW.shutdown srvW).2.1.registry ∧
    ((mgrW.shutdown srvW).2.1.store.claim "F" mgrW.queue_tag 4).2.map Task.id =
      srvW.store.tasks.map Task.id := by
  have h := C7_shutdown_returns_tasks mgrW srvW
    ⟨"W", "other", ManagerStatus.active, 1, 0, 0, "user", 0⟩ (by decide) rfl rfl rfl
  exact ⟨h.1, h.2.1, (h.2.2.2.2 "F" 4 (by decide) (by decide)).1⟩

/-! ## Supporting lemmas: two-manager registries -/

theorem addCounts_zero (reg : Registry) (n : String) : Registry.addCounts reg n 0 0 0 = reg := by
  unfold Registry.addCounts Registry.bump
  have h : ∀ r ∈ reg, (if r.name = n then
      ({ r with
          submitted := r.submitted + 0, completed := r.completed + 0,
          failed := r.failed + 0 } : ManagerRec) else r) = id r := by
    intro r _
    by_cases hc : r.name = n
    · rw [if_pos hc]
      rfl
    · rw [if_neg hc]
      rfl
  rw [List.map_congr_left h, List.map_id]

theorem addCounts_pair_right (xA xB : ManagerRec) (n : String) (a b c : Nat)
    (hA : ¬xA.name = n) (hB : xB.name = n) :
    Registry.addCounts [xA, xB] n a b c =
      [xA, { xB with
              submitted := xB.submitted + a, completed := xB.completed + b,
              failed := xB.failed + c }] := by
  show List.map _ _ = _
  rw [List.map_cons, List.map_cons, List.map_nil, if_neg hA, if_pos hB]

theorem heartbeat_pair_left (xA xB : ManagerRec) (n : String) (now : Nat)
    (hA : xA.name = n) (hB : ¬xB.name = n) :
    Registry.heartbeat [xA, xB] n now = [{ xA with last_heartbeat := now }, xB] := by
  show List.map _ _ = _
  rw [List.map_cons, List.map_cons, List.map_nil, if_pos hA, if_neg hB]

theorem heartbeat_pair_right (xA xB : ManagerRec) (n : String) (now : Nat)
    (hA : ¬xA.name = n) (hB : xB.name = n) :
    Registry.heartbeat [xA, xB] n now = [xA, { xB with last_heartbeat := now }] := by
  show List.map _ _ = _
  rw [List.map_cons, List.map_cons, List.map_nil, if_neg hA, if_pos hB]

theorem lookup_pair_left (xA xB : ManagerRec) (n : String) (h : xA.name = n) :
    Registry.lookup [xA, xB] n = some xA := by
  unfold Registry.lookup
  rw [find_cons, if_pos]
  rw [beq_iff_eq]
  exact h

theorem lookup_pair_right (xA xB : ManagerRec) (n : String) (hA : ¬xA.name = n)
    (hB : xB.name = n) : Registry.lookup [xA, xB] n = some xB := by
  unfold Registry.lookup
  rw [find_cons, if_neg, find_cons, if_pos]
  · rw [beq_iff_eq]
    exact hB
  · rw [beq_iff_eq]
    exact hA

/-! ## Claim theorem: tag isolation -/

/-- C5: claims are tag-filtered with no error on mismatch.  With N waiting
tasks all carrying manager B's queue tag, one `update()` of manager A (whose
tag differs) claims none of them — its `current_tasks` stays empty and the
registry still reads submitted = completed = 0 for A — while one `update()`
of manager B claims all N, and after the adapter finishes them and a second
`update()` pushes the results, the registry reads submitted = completed = N
for B (and still 0/0 for A). -/
theorem C5_tag_isolation (A B : QueueManager) (recA recB : ManagerRec) (ts : List Task)
    (nc nf : Nat) (nowA now1 now2 : Nat)
    (htags : ¬A.queue_tag = B.queue_tag)
    (hnames : ¬A.name = B.name)
    (hAcur : A.current_tasks = []) (hAtrk : A._stale_payload_tracking = [])
    (hBcur : B.current_tasks = []) (hBtrk : B._stale_payload_tracking = [])
    (hrecA : recA.name = A.name) (hrecB : recB.name = B.name)
    (hA0 : recA.submitted = 0) (hA1 : recA.completed = 0)
    (hB0 : recB.submitted = 0) (hB1 : recB.completed = 0)
    (hts : ∀ t ∈ ts, t.status = TaskStatus.waiting ∧ t.tag = B.queue_tag)
    (hlim : ts.length ≤ B.max_tasks) :
    (A.update ⟨⟨ts, nc, nf⟩, [recA, recB]⟩ true [] nowA).1.current_tasks = [] ∧
    (Registry.lookup (A.update ⟨⟨ts, nc, nf⟩, [recA, recB]⟩ true [] nowA).2.registry
        A.name).map ManagerRec.submitted = some 0 ∧
    (Registry.lookup (A.update ⟨⟨ts, nc, nf⟩, [recA, recB]⟩ true [] nowA).2.registry
        A.name).map ManagerRec.completed = some 0 ∧
    (B.update (A.update ⟨⟨ts, nc, nf⟩, [recA, recB]⟩ true [] nowA).2 true []
        now1).1.current_tasks = ts.map Task.id ∧
    ((B.update (A.update ⟨⟨ts, nc, nf⟩, [recA, recB]⟩ true [] nowA).2 true []
          now1).1.update
        (B.update (A.update ⟨⟨ts, nc, nf⟩, [recA, recB]⟩ true [] nowA).2 true [] now1).2
        true (ts.map (fun t => (t.id, Outcome.success))) now2).1.current_tasks = [] ∧
    (Registry.lookup ((B.update (A.update ⟨⟨ts, nc, nf⟩, [recA, recB]⟩ true [] nowA).2
          true [] now1).1.update
        (B.update (A.update ⟨⟨ts, nc, nf⟩, [recA, recB]⟩ true [] nowA).2 true [] now1).2
        true (ts.map (fun t => (t.id, Outcome.success))) now2).2.registry
        B.name).map ManagerRec.submitted = some ts.length ∧
    (Registry.lookup ((B.update (A.update ⟨⟨ts, nc, nf⟩, [recA, recB]⟩ true [] nowA).2
          true [] now1).1.update
        (B.update (A.update ⟨⟨ts, nc, nf⟩, [recA, recB]⟩ true [] nowA).2 true [] now1).2
        true (ts.map (fun t => (t.id, Outcome.success))) now2).2.registry
        B.name).map ManagerRec.completed = some ts.length ∧
    (Registry.lookup ((B.update (A.update ⟨⟨ts, nc, nf⟩, [recA, recB]⟩ true [] nowA).2
          true [] now1).1.update
        (B.update (A.update ⟨⟨ts, nc, nf⟩, [recA, recB]⟩ true [] nowA).2 true [] now1).2
        true (ts.map (fun t => (t.id, Outcome.success))) now2).2.registry
        A.name).map ManagerRec.submitted = some 0 ∧
    (Registry.lookup ((B.update (A.update ⟨⟨ts, nc, nf⟩, [recA, recB]⟩ true [] nowA).2
          true [] now1).1.update
        (B.update (A.update ⟨⟨ts, nc, nf⟩, [recA, recB]⟩ true [] nowA).2 true [] now1).2
        true (ts.map (fun t => (t.id, Outcome.success))) now2).2.registry
        A.name).map ManagerRec.completed = some 0 := by
  obtain ⟨na, ta, mtA, srA, curA, trkA, nstA⟩ := A
  obtain ⟨nb, tb, mtB, srB, curB, trkB, nstB⟩ := B
  simp only at htags hnames hAcur hAtrk hBcur hBtrk hrecA hrecB hts hlim ⊢
  subst hAcur hAtrk hBcur hBtrk
  have hnomatchA : claimGo na ta mtA ts = (ts, []) := by
    apply claimGo_nomatch
    intro t ht hc
    exact htags (((hts t ht).2).symm.trans hc.2 |>.symm)
  have hnameBA : ¬recB.name = na := by
    rw [hrecB]
    intro hc
    exact hnames hc.symm
  have hnameAB : ¬recA.name = nb := by
    rw [hrecA]
    exact hnames
  have eqA : QueueManager.update ⟨na, ta, mtA, srA, [], [], nstA⟩
      ⟨⟨ts, nc, nf⟩, [recA, recB]⟩ true [] nowA =
      (⟨na, ta, mtA, srA, [], [], nstA⟩,
        ⟨⟨ts, nc, nf⟩, [{recA with last_heartbeat := nowA}, recB]⟩) := by
    simp [QueueManager.update, QueueManager.retryStales, TaskStore.claim,
      TaskStore.completeBatch, hnomatchA, countSuccess, countFailure, addCounts_zero,
      heartbeat_pair_left recA recB na nowA hrecA hnameBA]
  rw [eqA]
  have hrecA2 : ({recA with last_heartbeat := nowA} : ManagerRec).name = na := hrecA
  have hnameAB2 : ¬({recA with last_heartbeat := nowA} : ManagerRec).name = nb := hnameAB
  have hall : claimGo nb tb mtB ts = (ts.map (claimMark nb), ts.map (claimMark nb)) :=
    claimGo_all nb tb mtB ts hts hlim
  have hid : (ts.map (claimMark nb)).map Task.id = ts.map Task.id := by
    rw [List.map_map]
    rfl
  have eq1 : QueueManager.update ⟨nb, tb, mtB, srB, [], [], nstB⟩
      ⟨⟨ts, nc, nf⟩, [{recA with last_heartbeat := nowA}, recB]⟩ true [] now1 =
      (⟨nb, tb, mtB, srB, ts.map Task.id, [], nstB⟩,
        ⟨⟨ts.map (claimMark nb), nc, nf⟩,
          [{recA with last_heartbeat := nowA},
            { recB with submitted := recB.submitted + ts.length, last_heartbeat := now1 }]⟩)
      := by
    simp [QueueManager.update, QueueManager.retryStales, TaskStore.claim,
      TaskStore.completeBatch, hall, hid, countSuccess, countFailure,
      Registry.addCounts, Registry.heartbeat, Registry.bump, hrecA, hrecB, hnames]
  rw [eq1]
  have hnomatch2 : claimGo nb tb (mtB - ts.length) (ts.map (claimMark nb)) =
      (ts.map (claimMark nb), []) := by
    apply claimGo_nomatch
    intro t ht hc
    rcases List.mem_map.mp ht with ⟨u, hu, hut⟩
    subst hut
    cases hc.1
  have hdone : (ts.map (fun t => (t.id, Outcome.success))).filter
      (fun p => (ts.map Task.id).contains p.1) = ts.map (fun t => (t.id, Outcome.success)) := by
    apply List.filter_eq_self.mpr
    intro p hp
    rcases List.mem_map.mp hp with ⟨u, hu, hup⟩
    subst hup
    exact List.elem_eq_true_of_mem (List.mem_map.mpr ⟨u, hu, rfl⟩)
  have hrem : (ts.map Task.id).filter
      (fun tid => !((ts.map (fun t => (t.id, Outcome.success))).any
        (fun p => p.1 == tid))) = [] := by
    apply List.filter_eq_nil_iff.mpr
    intro tid htid
    rcases List.mem_map.mp htid with ⟨u, hu, hut⟩
    subst hut
    have hany : (ts.map (fun t => (t.id, Outcome.success))).any
        (fun p => p.1 == u.id) = true :=
      List.any_eq_true.mpr ⟨(u.id, Outcome.success), List.mem_map.mpr ⟨u, hu, rfl⟩, by simp⟩
    simp [hany]
  have hcS : countSuccess (ts.map (fun t => (t.id, Outcome.success))) = ts.length := by
    unfold countSuccess
    rw [List.filter_eq_self.mpr, List.length_map]
    intro p hp
    rcases List.mem_map.mp hp with ⟨u, hu, hup⟩
    subst hup
    simp
  have hcF : countFailure (ts.map (fun t => (t.id, Outcome.success))) = 0 := by
    unfold countFailure
    rw [List.filter_eq_nil_iff.mpr]
    · rfl
    · intro p hp
      rcases List.mem_map.mp hp with ⟨u, hu, hup⟩
      subst hup
      simp
  have eq2 : QueueManager.update ⟨nb, tb, mtB, srB, ts.map Task.id, [], nstB⟩
      ⟨⟨ts.map (claimMark nb), nc, nf⟩,
        [{recA with last_heartbeat := nowA},
          { recB with submitted := recB.submitted + ts.length, last_heartbeat := now1 }]⟩
      true
      (ts.map (fun t => (t.id, Outcome.success))) now2 =
      (⟨nb, tb, mtB, srB, [], [], nstB⟩,
        ⟨(TaskStore.mk (ts.map (claimMark nb)) nc nf).completeBatch
            (ts.map (fun t => (t.id, Outcome.success))),
          [{recA with last_heartbeat := nowA},
            { recB with submitted := recB.submitted + ts.length, completed := recB.completed + ts.length, last_heartbeat := now2 }]⟩)
      := by
    simp [QueueManager.update, QueueManager.retryStales, TaskStore.claim,
      TaskStore.completeBatch, hnomatch2, hdone, hrem, hcS, hcF, countSuccess,
      countFailure, Registry.addCounts, Registry.heartbeat, Registry.bump,
      hrecA, hrecB, hnames]
    refine ⟨fun a ha => ⟨a, ha, a, ha, rfl, rfl⟩, ?_, ?_⟩
    · congr 1
      apply List.filter_eq_self.mpr
      intro p hp
      rcases List.mem_map.mp hp with ⟨u, hu, hup⟩
      subst hup
      rw [decide_eq_true_eq]
      exact ⟨u, hu, rfl⟩
    · rw [List.filter_eq_self.mpr, List.length_map]
      intro p hp
      rcases List.mem_map.mp hp with ⟨u, hu, hup⟩
      subst hup
      rw [Bool.and_eq_true, decide_eq_true_eq, decide_eq_true_eq]
      exact ⟨rfl, u, hu, rfl⟩
  rw [eq2]
  have hlookB : Registry.lookup
      [{recA with last_heartbeat := nowA},
        { recB with submitted := recB.submitted + ts.length, completed := recB.completed + ts.length, last_heartbeat := now2 }]
      nb =
      some { recB with submitted := recB.submitted + ts.length, completed := recB.completed + ts.length, last_heartbeat := now2 } :=
    lookup_pair_right _ _ _ hnameAB2 hrecB
  refine ⟨rfl, ?_, ?_, rfl, rfl, ?_, ?_, ?_, ?_⟩
  · show Option.map ManagerRec.submitted (Registry.lookup _ na) = some 0
    rw [lookup_pair_left _ _ _ hrecA2]
    show some recA.submitted = some 0
    rw [hA0]
  · show Option.map ManagerRec.completed (Registry.lookup _ na) = some 0
    rw [lookup_pair_left _ _ _ hrecA2]
    show some recA.completed = some 0
    rw [hA1]
  · show Option.map ManagerRec.submitted (Registry.lookup _ nb) = some ts.length
    rw [hlookB]
    show some (recB.submitted + ts.length) = some ts.length
    rw [hB0, Nat.zero_add]
  · show Option.map ManagerRec.completed (Registry.lookup _ nb) = some ts.length
    rw [hlookB]
    show some (recB.completed + ts.length) = some ts.length
    rw [hB1, Nat.zero_add]
  · show Option.map ManagerRec.submitted (Registry.lookup _ na) = some 0
    rw [lookup_pair_left _ _ _ hrecA2]
    show some recA.submitted = some 0
    rw [hA0]
  · show Option.map ManagerRec.completed (Registry.lookup _ na) = some 0
    rw [lookup_pair_left _ _ _ hrecA2]
    show some recA.completed = some 0
    rw [hA1]

/-- Sample manager A with queue tag `stuff` for the tag-isolation witness. -/
def qmA : QueueManager := ⟨"A", "stuff", 5, 1, [], [], 0⟩

/-- Sample manager B with queue tag `other` for the tag-isolation witness. -/
def qmB : QueueManager := ⟨"B", "other", 5, 1, [], [], 0⟩

/-- Registry record of manager A, all counters 0. -/
def recAW : ManagerRec := ⟨"A", "stuff", ManagerStatus.active, 0, 0, 0, "user", 0⟩

/-- Registry record of manager B, all counters 0. -/
def recBW : ManagerRec := ⟨"B", "other", ManagerStatus.active, 0, 0, 0, "user", 0⟩

/-- Two waiting tasks tagged `other`. -/
def tsW : List Task :=
  [⟨1, "other", TaskStatus.waiting, none⟩, ⟨2, "other", TaskStatus.waiting, none⟩]

/-- C5 witness: with two `other`-tagged tasks, manager A (tag `stuff`) claims
none and manager B (tag `other`) claims both; after B pushes the finished
results its registry counters read submitted = completed = 2. -/
theorem C5_tag_isolation_witness :
    (qmA.update ⟨⟨tsW, 0, 0⟩, [recAW, recBW]⟩ true [] 10).1.current_tasks = [] ∧
    (qmB.update (qmA.update ⟨⟨tsW, 0, 0⟩, [recAW, recBW]⟩ true [] 10).2 true []
        20).1.current_tasks = tsW.map Task.id ∧
    (Registry.lookup ((qmB.update (qmA.update ⟨⟨tsW, 0, 0⟩, [recAW, recBW]⟩ true []
            10).2 true [] 20).1.update
        (qmB.update (qmA.update ⟨⟨tsW, 0, 0⟩, [recAW, recBW]⟩ true [] 10).2 true [] 20).2
        true (tsW.map (fun t => (t.id, Outcome.success))) 30).2.registry
        "B").map ManagerRec.submitted = some 2 ∧
    (Registry.lookup ((qmB.update (qmA.update ⟨⟨tsW, 0, 0⟩, [recAW, recBW]⟩ true []
            10).2 true [] 20).1.update
        (qmB.update (qmA.update ⟨⟨tsW, 0, 0⟩, [recAW, recBW]⟩ true [] 10).2 true [] 20).2
        true (tsW.map (fun t => (t.id, Outcome.success))) 30).2.registry
        "B").map ManagerRec.completed = some 2 := by
  have h := C5_tag_isolation qmA qmB recAW recBW tsW 0 0 10 20 30 (by decide) (by decide)
    rfl rfl rfl rfl rfl rfl rfl rfl rfl rfl (by decide) (by decide)
  exact ⟨h.1, h.2.2.2.1, h.2.2.2.2.2.1, h.2.2.2.2.2.2.1⟩

/-- Sample dataset: entry `e1` without a record, entry `e2` already holding a
record for specification `spec1`. -/
def dsW : ProcedureDataset :=
  ⟨[("e1", ⟨"e1", []⟩), ("e2", ⟨"e2", [("spec1", 5)]⟩)], [("spec1", ⟨"spec1", 7⟩)], []⟩

/-- The sample dataset after one `compute` of `spec1` with id generator 42. -/
def dsW1 : ProcedureDataset :=
  ⟨[("e1", ⟨"e1", [("spec1", 42)]⟩), ("e2", ⟨"e2", [("spec1", 5)]⟩)],
    [("spec1", ⟨"spec1", 7⟩)], ["spec1"]⟩

/-- C9 witness: on the sample dataset, `compute` submits exactly the one entry
lacking a record and a second `compute` is a no-op returning 0. -/
theorem C9_compute_idempotent_witness :
    1 = (dsW.records.filter (fun kv => !(subsetSkip none kv.2.name) &&
          !((alistGet kv.2.object_map ("spec1" : String)).isSome))).length ∧
    dsW1.compute "spec1" none (fun _ _ => 43) = Except.ok (dsW1, 0) :=
  C9_compute_idempotent dsW dsW1 "spec1" none (fun _ _ => 42) (fun _ _ => 43) 1 ⟨"spec1", 7⟩
    (by rfl) (by rfl)

/-- C10 witness: on the sample dataset, adding a duplicate specification
raises, lookups differing only in case agree, and a missing name raises. -/
theorem C10_case_insensitive_lookup_witness :
    ((alistGet dsW.specs (pyLower "Spec1")).isSome = true ∧
      (∃ e, dsW._add_specification "Spec1" ⟨"spec1", 9⟩ false = Except.error e)) ∧
    (pyLower "E1" = pyLower "e1" ∧
      (dsW.get_specification "E1" = dsW.get_specification "e1" ∧
        dsW.get_entry "E1" = dsW.get_entry "e1")) ∧
    (alistGet dsW.specs (pyLower "missing") = none ∧
      (∃ e, dsW.get_specification "missing" = Except.error e)) :=
  ⟨⟨by rfl, C10_case_insensitive_lookup.2.1 dsW "Spec1" ⟨"spec1", 9⟩ (by rfl)⟩,
    ⟨by rfl, C10_case_insensitive_lookup.2.2.1 dsW "E1" "e1" (by rfl)⟩,
    ⟨by rfl, C10_case_insensitive_lookup.2.2.2.1 dsW "missing" (by rfl)⟩⟩

end QCFractal
